import Mathlib

/-!
Verification of the one-shot text-splicing script `insert_handlers.py`.

The script reads a target file as a list of lines (Python `readlines`,
text mode with universal-newline translation), reads an insertion file
the same way, builds `lines[:633] + handlers + lines[633:]`, overwrites
the target file with the concatenation, and prints a confirmation line.

File contents are modelled as lists of characters.  The filesystem is a
map from paths to optional contents; `run` models one execution of the
script, recording the successful file operations as an event trace.
-/

namespace SpliceScript

/-- A file's decoded text content. -/
abbrev Content := List Char

/-- Universal-newline translation performed by Python text-mode reads:
each of the sequences CR-LF and lone CR becomes LF. -/
def translate : Content → Content
  | [] => []
  | '\r' :: '\n' :: rest => '\n' :: translate rest
  | '\r' :: rest => '\n' :: translate rest
  | c :: rest => c :: translate rest

/-- Python line splitting with terminators kept (`readlines` on an
already-translated stream): a line ends just after each LF, and a final
fragment without LF is a line of its own. -/
def splitLines : Content → List Content
  | [] => []
  | c :: cs =>
    if c = '\n' then ['\n'] :: splitLines cs
    else
      match splitLines cs with
      | [] => [[c]]
      | l :: ls => (c :: l) :: ls

/-- `f.readlines()` on a text-mode handle: translate newlines, then split
keeping terminators. -/
def pyReadlines (c : Content) : List Content :=
  splitLines (translate c)

/-- The core splice: `lines[:i] + handlers + lines[i:]` with Python's
clamping slice semantics (`List.take` / `List.drop` clamp the same way). -/
def splice (T S : List Content) (i : Nat) : List Content :=
  T.take i ++ S ++ T.drop i

/-- A successful whole-file operation performed by the script. -/
inductive Event where
  | readEv : String → Event
  | writeEv : String → Event
deriving DecidableEq

/-- Observable outcome of one run of the script: the filesystem after the
run, the successful file operations in order, the lines printed to
standard output, and whether the process exits with success status. -/
structure RunOutcome where
  fs : String → Option Content
  trace : List Event
  stdout : List String
  ok : Bool

/-- One execution of the script over filesystem `fs`: open and read the
target (an absent file raises, aborting with failure status before
anything else happens), open and read the insertion file (absence again
aborts, before any write), splice, overwrite the target with the
concatenated result, print the confirmation. -/
def run (tpath ipath : String) (idx : Nat) (fs : String → Option Content) :
    RunOutcome :=
  match fs tpath with
  | none => ⟨fs, [], [], false⟩
  | some ct =>
    match fs ipath with
    | none => ⟨fs, [Event.readEv tpath], [], false⟩
    | some ci =>
      let lines := pyReadlines ct
      let handlers := pyReadlines ci
      let result := splice lines handlers idx
      ⟨fun p => if p = tpath then some result.flatten else fs p,
       [Event.readEv tpath, Event.readEv ipath, Event.writeEv tpath],
       ["Touch handlers inserted successfully"], true⟩

/-- The hardcoded target path of the script. -/
def scriptTarget : String := "src/components/player/playerController.ts"

/-- The hardcoded insertion path of the script. -/
def scriptInsertion : String := ".tmp_touch_handlers.txt"

/-- The hardcoded insertion index of the script. -/
def scriptIndex : Nat := 633

/-- The script exactly as written: fixed paths, fixed index 633. -/
def scriptRun (fs : String → Option Content) : RunOutcome :=
  run scriptTarget scriptInsertion scriptIndex fs

/-- True when the character is not a line feed. -/
def notNL (c : Char) : Bool := c != '\n'

/-- No line feed anywhere in the fragment. -/
def noNL (l : Content) : Bool := l.all notNL

/-- A terminated line: nonempty, ends with LF, no interior LF. -/
def isTermLine : Content → Bool
  | [] => false
  | [c] => c == '\n'
  | c :: rest => notNL c && isTermLine rest

/-- A bare (terminator-less) line: nonempty, no LF at all. -/
def isBareLine (l : Content) : Bool := !l.isEmpty && noNL l

/-- A well-formed line sequence as produced by `readlines`: every line
but the last is terminated, and the last is terminated or bare. -/
def wfLines : List Content → Bool
  | [] => true
  | [l] => isTermLine l || isBareLine l
  | l :: ls => isTermLine l && wfLines ls

/- ### Helper lemmas about `splitLines` -/

theorem splitLines_nil : splitLines [] = [] := rfl

theorem splitLines_nl (cs : Content) :
    splitLines ('\n' :: cs) = ['\n'] :: splitLines cs := by
  simp [splitLines]

theorem splitLines_cons_of_ne_nil (c : Char) (cs : Content) (h : c ≠ '\n')
    (h2 : splitLines cs = []) : splitLines (c :: cs) = [[c]] := by
  simp [splitLines, h, h2]

theorem splitLines_cons_of_ne_cons (c : Char) (cs l : Content)
    (ls : List Content) (h : c ≠ '\n') (h2 : splitLines cs = l :: ls) :
    splitLines (c :: cs) = (c :: l) :: ls := by
  simp [splitLines, h, h2]

theorem splitLines_term_append (l rest : Content)
    (h : isTermLine l = true) :
    splitLines (l ++ rest) = l :: splitLines rest := by
  induction l with
  | nil => simp [isTermLine] at h
  | cons c t ih =>
    cases t with
    | nil =>
      have hc : c = '\n' := by simpa [isTermLine] using h
      subst hc
      simpa using splitLines_nl rest
    | cons d t2 =>
      have h1 : notNL c = true ∧ isTermLine (d :: t2) = true := by
        simpa [isTermLine] using h
      have hc : c ≠ '\n' := by
        have := h1.1
        simp [notNL] at this
        exact this
      have ih2 := ih h1.2
      calc splitLines ((c :: d :: t2) ++ rest)
          = splitLines (c :: ((d :: t2) ++ rest)) := by simp
        _ = (c :: ((d :: t2))) :: splitLines rest := by
            exact splitLines_cons_of_ne_cons c _ _ _ hc ih2

theorem splitLines_bare (l : Content) (h : isBareLine l = true) :
    splitLines l = [l] := by
  induction l with
  | nil => simp [isBareLine] at h
  | cons c t ih =>
    have hall : notNL c = true ∧ noNL t = true := by
      simpa [isBareLine, noNL] using h
    have hc : c ≠ '\n' := by
      have := hall.1
      simp [notNL] at this
      exact this
    cases t with
    | nil => exact splitLines_cons_of_ne_nil c [] hc rfl
    | cons d t2 =>
      have ih2 : splitLines (d :: t2) = [d :: t2] := by
        apply ih
        simp [isBareLine, noNL]
        simpa [noNL] using hall.2
      exact splitLines_cons_of_ne_cons c _ _ _ hc ih2

theorem splitLines_noNL_prepend (m cs l : Content) (ls : List Content)
    (hm : noNL m = true) (h : splitLines cs = l :: ls) :
    splitLines (m ++ cs) = (m ++ l) :: ls := by
  induction m with
  | nil => simpa using h
  | cons c m2 ih =>
    have hall : notNL c = true ∧ noNL m2 = true := by
      simpa [noNL] using hm
    have hc : c ≠ '\n' := by
      have := hall.1
      simp [notNL] at this
      exact this
    have ih2 := ih hall.2
    calc splitLines ((c :: m2) ++ cs)
        = splitLines (c :: (m2 ++ cs)) := by simp
      _ = (c :: (m2 ++ l)) :: ls := splitLines_cons_of_ne_cons c _ _ _ hc ih2
      _ = ((c :: m2) ++ l) :: ls := by simp

theorem splitLines_flatten_append_of_all_term (A : List Content)
    (rest : Content) (hA : A.all isTermLine = true) :
    splitLines (A.flatten ++ rest) = A ++ splitLines rest := by
  induction A with
  | nil => simp
  | cons a A2 ih =>
    have h1 : isTermLine a = true ∧ A2.all isTermLine = true := by
      simpa using hA
    calc splitLines ((a :: A2).flatten ++ rest)
        = splitLines (a ++ (A2.flatten ++ rest)) := by simp
      _ = a :: splitLines (A2.flatten ++ rest) :=
          splitLines_term_append a _ h1.1
      _ = a :: (A2 ++ splitLines rest) := by rw [ih h1.2]
      _ = (a :: A2) ++ splitLines rest := by simp

theorem splitLines_flatten (L : List Content) (h : wfLines L = true) :
    splitLines L.flatten = L := by
  induction L with
  | nil => rfl
  | cons l ls ih =>
    cases ls with
    | nil =>
      have h1 : isTermLine l = true ∨ isBareLine l = true := by
        simpa [wfLines] using h
      cases h1 with
      | inl ht =>
        have := splitLines_term_append l [] ht
        simpa using this
      | inr hb =>
        have := splitLines_bare l hb
        simpa using this
    | cons l2 ls2 =>
      have h1 : isTermLine l = true ∧ wfLines (l2 :: ls2) = true := by
        simpa [wfLines] using h
      calc splitLines (l :: l2 :: ls2).flatten
          = splitLines (l ++ (l2 :: ls2).flatten) := by simp
        _ = l :: splitLines (l2 :: ls2).flatten :=
            splitLines_term_append l _ h1.1
        _ = l :: (l2 :: ls2) := by rw [ih h1.2]

/- ### Helper lemmas about `splice` -/

theorem splice_of_ge (T S : List Content) (i : Nat) (h : T.length ≤ i) :
    splice T S i = T ++ S := by
  simp [splice, List.take_of_length_le h, List.drop_eq_nil_of_le h]

/- ### Claim theorems -/

/-- C1: for every target line sequence `T = pyReadlines ct`, insertion
line sequence `S = pyReadlines ci`, and index `idx ≤ len T`, the run
succeeds and overwrites the target file with exactly the concatenation
`T[0:idx] ++ S ++ T[idx:]`, byte for byte: the written bytes are the
flattening of those lines, each line kept with its terminator as read. -/
theorem run_writes_exact_splice (tpath ipath : String) (ct ci : Content)
    (idx : Nat) (fs : String → Option Content)
    (h1 : fs tpath = some ct) (h2 : fs ipath = some ci)
    (_h3 : idx ≤ (pyReadlines ct).length) :
    (run tpath ipath idx fs).ok = true ∧
    (run tpath ipath idx fs).fs tpath =
      some (((pyReadlines ct).take idx ++ pyReadlines ci ++
        (pyReadlines ct).drop idx).flatten) := by
  simp [run, h1, h2, splice]

/-- C2: if the insertion file does not exist at read time, the run fails
(non-success status) and the target file's content is unchanged. -/
theorem missing_insertion_leaves_target_unchanged (tpath ipath : String)
    (idx : Nat) (fs : String → Option Content) (h : fs ipath = none) :
    (run tpath ipath idx fs).ok = false ∧
    (run tpath ipath idx fs).fs tpath = fs tpath := by
  cases h1 : fs tpath <;> simp [run, h1, h]

/-- C3: an insertion index strictly beyond the target length appends the
insertion at the end: the spliced output is `T ++ S` (Python slices
clamp, `lines[:i] = lines` and `lines[i:] = []` for `i > len lines`). -/
theorem splice_index_beyond_length_appends (T S : List Content) (i : Nat)
    (h : T.length < i) : splice T S i = T ++ S :=
  splice_of_ge T S i (le_of_lt h)

/-- C4: splicing is not idempotent: for a valid index and non-empty
insertion, splicing twice at the same index yields
`T[0:i] ++ S ++ S ++ T[i:]`, which differs from splicing once. -/
theorem splice_not_idempotent (T S : List Content) (i : Nat)
    (h1 : i ≤ T.length) (h2 : S ≠ []) :
    splice (splice T S i) S i = T.take i ++ S ++ S ++ T.drop i ∧
    splice (splice T S i) S i ≠ splice T S i := by
  have hlen : (T.take i).length = i := by
    simp [List.length_take]
    omega
  have hsp : splice T S i = T.take i ++ (S ++ T.drop i) := by
    simp [splice]
  have key : ∀ A X : List Content, A.length = i →
      (A ++ X).take i = A ∧ (A ++ X).drop i = X := by
    intro A X hA
    subst hA
    exact ⟨List.take_left A X, List.drop_left A X⟩
  obtain ⟨ht, hd⟩ := key (T.take i) (S ++ T.drop i) hlen
  constructor
  · calc splice (splice T S i) S i
        = (splice T S i).take i ++ S ++ (splice T S i).drop i := rfl
      _ = (T.take i ++ (S ++ T.drop i)).take i ++ S ++
            (T.take i ++ (S ++ T.drop i)).drop i := by rw [hsp]
      _ = T.take i ++ S ++ (S ++ T.drop i) := by rw [ht, hd]
      _ = T.take i ++ S ++ S ++ T.drop i := by simp [List.append_assoc]
  · intro heq
    have hlen2 := congrArg List.length heq
    have hS : S.length ≠ 0 := fun e => h2 (List.length_eq_zero.mp e)
    simp [splice, List.length_append] at hlen2
    omega

/-- C5: splicing an empty insertion sequence at any index is a no-op. -/
theorem splice_empty_insertion_noop (T : List Content) (i : Nat) :
    splice T [] i = T := by
  simp [splice]

/-- C6: index 0 places the insertion at the very start of the output and
index `len T` places it at the very end. -/
theorem splice_start_end_boundaries (T S : List Content) :
    splice T S 0 = S ++ T ∧ splice T S T.length = T ++ S := by
  constructor <;> simp [splice]

/-- C7: the insertion file is never modified: whether the run succeeds or
fails, the content stored at the insertion path is unchanged (the two
hardcoded paths of the script are distinct). -/
theorem insertion_file_untouched (tpath ipath : String) (idx : Nat)
    (fs : String → Option Content) (h : tpath ≠ ipath) :
    (run tpath ipath idx fs).fs ipath = fs ipath := by
  cases h1 : fs tpath with
  | none => simp [run, h1]
  | some ct =>
    cases h2 : fs ipath with
    | none => simp [run, h1, h2]
    | some ci => simp [run, h1, h2, Ne.symm h]

/-- C8: in every run, any write event in the trace is preceded by the
completed read of the target path: the target is fully read into memory
before any write begins, and reads and writes are whole-file (never
interleaved on one handle). -/
theorem target_read_before_write (tpath ipath : String) (idx : Nat)
    (fs : String → Option Content) (n : Nat) (p : String)
    (h : (run tpath ipath idx fs).trace.get? n = some (Event.writeEv p)) :
    ∃ m, m < n ∧ (run tpath ipath idx fs).trace.get? m =
      some (Event.readEv tpath) := by
  cases h1 : fs tpath with
  | none => simp [run, h1] at h
  | some ct =>
    cases h2 : fs ipath with
    | none =>
      simp only [run, h1, h2] at h
      match n, h with
      | 0, h => simp at h
      | n + 1, h => simp at h
    | some ci =>
      simp only [run, h1, h2] at h ⊢
      match n, h with
      | 0, h => simp at h
      | 1, h => simp at h
      | 2, h => exact ⟨0, by omega, rfl⟩
      | n + 3, h => simp at h

/-- C9: on success (both files readable), the program prints the
confirmation message to standard output and exits with success status. -/
theorem success_prints_confirmation (tpath ipath : String) (idx : Nat)
    (fs : String → Option Content) (ct ci : Content)
    (h1 : fs tpath = some ct) (h2 : fs ipath = some ci) :
    (run tpath ipath idx fs).stdout =
      ["Touch handlers inserted successfully"] ∧
    (run tpath ipath idx fs).ok = true := by
  simp [run, h1, h2]

/-- C10: when the target's last line `lt` has no trailing terminator, the
insertion index is at or beyond the target length, and the insertion
sequence is non-empty, the written output is exactly the two flattened
sequences with no terminator inserted between them, and in the written
output's line structure the former last line of the target and the first
inserted line are joined into the single line `lt ++ s0`. -/
theorem splice_terminatorless_last_line_joins (T : List Content)
    (lt s0 : Content) (srest : List Content) (i : Nat)
    (hT : T.dropLast.all isTermLine = true)
    (hlast : T.getLast? = some lt)
    (hbare : isBareLine lt = true)
    (hS : wfLines (s0 :: srest) = true)
    (hi : T.length ≤ i) :
    (splice T (s0 :: srest) i).flatten =
      T.flatten ++ (s0 :: srest).flatten ∧
    splitLines ((splice T (s0 :: srest) i).flatten) =
      T.dropLast ++ (lt ++ s0) :: srest := by
  have hsp : splice T (s0 :: srest) i = T ++ (s0 :: srest) :=
    splice_of_ge _ _ _ hi
  have hTd : T.dropLast ++ [lt] = T :=
    List.dropLast_append_getLast? lt (Option.mem_def.mpr hlast)
  have hflat : T.flatten = T.dropLast.flatten ++ lt := by
    conv_lhs => rw [← hTd]
    simp
  have hnoNL : noNL lt = true := by
    have hb := hbare
    simp [isBareLine] at hb
    exact hb.2
  have hsS : splitLines ((s0 :: srest).flatten) = s0 :: srest :=
    splitLines_flatten _ hS
  have hpre : splitLines (lt ++ (s0 :: srest).flatten) =
      (lt ++ s0) :: srest :=
    splitLines_noNL_prepend lt _ s0 srest hnoNL hsS
  constructor
  · rw [hsp, List.flatten_append]
  · rw [hsp, List.flatten_append, hflat, List.append_assoc,
      splitLines_flatten_append_of_all_term T.dropLast _ hT, hpre]

/- ### Sample filesystems for the witnesses -/

/-- A filesystem holding a two-line target and a one-line insertion. -/
def sampleFS : String → Option Content := fun p =>
  if p = "t.txt" then some ['a', '\n', 'b', '\n']
  else if p = "i.txt" then some ['X', '\n']
  else none

/-- A filesystem where the insertion file is absent. -/
def sampleFSNoIns : String → Option Content := fun p =>
  if p = "t.txt" then some ['a', '\n'] else none

/- ### Witnesses -/

/-- Witness for C1 at a concrete filesystem and index. -/
theorem run_writes_exact_splice_witness :
    (run "t.txt" "i.txt" 1 sampleFS).ok = true ∧
    (run "t.txt" "i.txt" 1 sampleFS).fs "t.txt" =
      some (((pyReadlines ['a', '\n', 'b', '\n']).take 1 ++
        pyReadlines ['X', '\n'] ++
        (pyReadlines ['a', '\n', 'b', '\n']).drop 1).flatten) :=
  run_writes_exact_splice "t.txt" "i.txt" ['a', '\n', 'b', '\n']
    ['X', '\n'] 1 sampleFS (by decide) (by decide) (by decide)

/-- Witness for C2: absent insertion file on a concrete filesystem. -/
theorem missing_insertion_witness :
    (run "t.txt" "i.txt" 633 sampleFSNoIns).ok = false ∧
    (run "t.txt" "i.txt" 633 sampleFSNoIns).fs "t.txt" =
      sampleFSNoIns "t.txt" :=
  missing_insertion_leaves_target_unchanged "t.txt" "i.txt" 633
    sampleFSNoIns (by decide)

/-- Witness for C3 at a concrete out-of-range index. -/
theorem splice_index_beyond_witness :
    splice [['a', '\n']] [['X', '\n']] 5 = [['a', '\n']] ++ [['X', '\n']] :=
  splice_index_beyond_length_appends [['a', '\n']] [['X', '\n']] 5
    (by decide)

/-- Witness for C4 at a concrete target, insertion and index. -/
theorem splice_not_idempotent_witness :
    splice (splice [['a', '\n']] [['X', '\n']] 1) [['X', '\n']] 1 =
      [['a', '\n']].take 1 ++ [['X', '\n']] ++ [['X', '\n']] ++
        [['a', '\n']].drop 1 ∧
    splice (splice [['a', '\n']] [['X', '\n']] 1) [['X', '\n']] 1 ≠
      splice [['a', '\n']] [['X', '\n']] 1 :=
  splice_not_idempotent [['a', '\n']] [['X', '\n']] 1 (by decide)
    (by decide)

/-- Witness for C7 at the script's own hardcoded (distinct) paths. -/
theorem insertion_file_untouched_witness :
    (run scriptTarget scriptInsertion scriptIndex sampleFS).fs
      scriptInsertion = sampleFS scriptInsertion :=
  insertion_file_untouched scriptTarget scriptInsertion scriptIndex
    sampleFS (by decide)

/-- Witness for C8: the write at trace position 2 of a successful run is
preceded by the read of the target. -/
theorem target_read_before_write_witness :
    ∃ m, m < 2 ∧ (run "t.txt" "i.txt" 1 sampleFS).trace.get? m =
      some (Event.readEv "t.txt") :=
  target_read_before_write "t.txt" "i.txt" 1 sampleFS 2 "t.txt"
    (by decide)

/-- Witness for C9 on a concrete successful run. -/
theorem success_prints_confirmation_witness :
    (run "t.txt" "i.txt" 1 sampleFS).stdout =
      ["Touch handlers inserted successfully"] ∧
    (run "t.txt" "i.txt" 1 sampleFS).ok = true :=
  success_prints_confirmation "t.txt" "i.txt" 1 sampleFS
    ['a', '\n', 'b', '\n'] ['X', '\n'] (by decide) (by decide)

/-- Witness for C10: target `["a\n", "b"]` (last line bare), insertion
`["X\n"]`, index 2. -/
theorem splice_terminatorless_witness :
    (splice [['a', '\n'], ['b']] (['X', '\n'] :: []) 2).flatten =
      [['a', '\n'], ['b']].flatten ++ (['X', '\n'] :: []).flatten ∧
    splitLines ((splice [['a', '\n'], ['b']] (['X', '\n'] :: []) 2).flatten) =
      [['a', '\n'], ['b']].dropLast ++ (['b'] ++ ['X', '\n']) :: [] :=
  splice_terminatorless_last_line_joins [['a', '\n'], ['b']] ['b']
    ['X', '\n'] [] 2 (by decide) (by decide) (by decide) (by decide)
    (by decide)

end SpliceScript
